import Mathlib

/-!
# Verification of the price-series store and indicator engine

Shallow embedding of `core/ohlc.py` and `core/indicators.py`.

Modelling conventions:
* A NumPy float array is modelled as `List (Option ℚ)`: `none` stands for
  the floating `NaN` sentinel, `some q` for an ordinary (always rational)
  float value.  Arithmetic on `none` propagates `none`, matching IEEE NaN
  propagation through `+`, `-`, `*`.
* Division is the one place floats are not NaN-strict: the RSI computation
  divides and relies on `x/0 = +inf` and `0/0 = NaN`; the helper
  `rsiOfAvgs` spells those two cases out explicitly.
* `np.std(-, ddof := 1)` takes a square root, which is irrational, so the
  Bollinger-band values live in `ℝ` (and only they are noncomputable).
* For `period = 0` on an empty array the Python code raises `IndexError`
  (it assigns to `arr[-1]` on an empty array); that corner is unreachable
  from every caller in the repository and is modelled as an empty output.
-/

set_option autoImplicit false

/-- Mean of a float array: `np.mean` of an empty array is NaN, otherwise
the sum divided by the length. -/
def meanOpt (l : List ℚ) : Option ℚ :=
  if l.isEmpty then none else some (l.sum / l.length)

/-- Collapse a float array with possible NaNs into a pure list, `none` if
any entry is NaN. -/
def allSome : List (Option ℚ) → Option (List ℚ)
  | [] => some []
  | none :: _ => none
  | some x :: t => (allSome t).map (x :: ·)

/-- `np.mean` over an array that may contain NaNs: any NaN makes the mean
NaN. -/
def meanOptN (l : List (Option ℚ)) : Option ℚ :=
  (allSome l).bind meanOpt

/-- Elementwise float subtraction: NaN in either operand gives NaN. -/
def subOpt (a b : Option ℚ) : Option ℚ :=
  a.bind fun x => b.map fun y => x - y

/-- Source: `TechnicalIndicators.calculate_sma` (indicators.py:17-34).
If `len(prices) < period` the whole output is NaN; otherwise entry `i` for
`i ≥ period-1` is `np.mean(prices[i-period+1 : i+1])` and earlier entries
stay NaN. -/
def calculate_sma (prices : List (Option ℚ)) (period : ℕ) : List (Option ℚ) :=
  if prices.length < period then List.replicate prices.length none
  else
    (List.range prices.length).map fun i =>
      if period - 1 ≤ i then meanOptN ((prices.drop (i + 1 - period)).take period)
      else none

/-- Entry `i` of the EMA array of `calculate_ema` (indicators.py:37-61):
NaN before index `period-1`, warm start `np.mean(prices[:period])` at
`period-1`, and `(prices[i] - ema[i-1]) * 2/(period+1) + ema[i-1]` for
`i ≥ period` (NaN-propagating).  Written as structural recursion on the
index, mirroring the source's in-order loop. -/
def emaAt (prices : List (Option ℚ)) (period : ℕ) : ℕ → Option ℚ
  | 0 => if period ≤ 1 then meanOptN (prices.take period) else none
  | i + 1 =>
    if i + 1 + 1 ≤ period then
      if i + 1 + 1 = period then meanOptN (prices.take period) else none
    else
      (emaAt prices period i).bind fun e =>
        (prices.get? (i + 1)).bind fun po =>
          po.map fun p => (p - e) * (2 / ((period : ℚ) + 1)) + e

/-- Source: `TechnicalIndicators.calculate_ema` (indicators.py:37-61). -/
def calculate_ema (prices : List (Option ℚ)) (period : ℕ) : List (Option ℚ) :=
  if prices.length < period then List.replicate prices.length none
  else (List.range prices.length).map (emaAt prices period)

/-- `np.diff(prices)`: `deltas[i] = prices[i+1] - prices[i]`, with NaN
propagation. -/
def npDiff (prices : List (Option ℚ)) : List (Option ℚ) :=
  List.zipWith (fun nxt cur => nxt.bind fun x => cur.map fun y => x - y)
    prices.tail prices

/-- The `gains` array of `calculate_rsi` (indicators.py:81-89): a zero is
prepended, and `gains[deltas > 0] = deltas[deltas > 0]` leaves `0`
wherever the delta is `≤ 0` or NaN (a NumPy comparison with NaN is
false). -/
def gainsList (prices : List (Option ℚ)) : List ℚ :=
  0 :: (npDiff prices).map fun d =>
    match d with
    | some x => if 0 < x then x else 0
    | none => 0

/-- The `losses` array of `calculate_rsi` (indicators.py:82-90). -/
def lossList (prices : List (Option ℚ)) : List ℚ :=
  0 :: (npDiff prices).map fun d =>
    match d with
    | some x => if x < 0 then -x else 0
    | none => 0

/-- Entry `i` of the smoothed-average arrays of `calculate_rsi`
(indicators.py:93-103): NaN before index `period`, the simple mean
`np.mean(xs[1:period+1])` at index `period`, then Wilder smoothing
`(avg[i-1]*(period-1) + xs[i]) / period`. -/
def wilderAvg (xs : List ℚ) (period : ℕ) : ℕ → Option ℚ
  | 0 => if period = 0 then meanOpt ((xs.drop 1).take period) else none
  | i + 1 =>
    if i + 1 < period then none
    else if i + 1 = period then meanOpt ((xs.drop 1).take period)
    else
      (wilderAvg xs period i).bind fun prev =>
        (xs.get? (i + 1)).map fun g => (prev * ((period : ℚ) - 1) + g) / period

/-- One element of `rsi = 100 - 100/(1 + avg_gains/avg_losses)`
(indicators.py:106-107), spelling out the IEEE semantics of the division
for the nonnegative averages the source produces: `l > 0` gives a finite
value, `l = 0 < g` gives `rs = +inf` hence `rsi = 100`, and `g = l = 0`
gives `rs = NaN` hence `rsi = NaN`. -/
def rsiOfAvgs (g l : ℚ) : Option ℚ :=
  if l ≠ 0 then some (100 - 100 / (1 + g / l))
  else if g ≠ 0 then some 100
  else none

/-- Source: `TechnicalIndicators.calculate_rsi` (indicators.py:64-109).
If `len(prices) <= period` the whole output is NaN. -/
def calculate_rsi (prices : List (Option ℚ)) (period : ℕ) : List (Option ℚ) :=
  if prices.length ≤ period then List.replicate prices.length none
  else
    (List.range prices.length).map fun i =>
      match wilderAvg (gainsList prices) period i,
            wilderAvg (lossList prices) period i with
      | some g, some l => rsiOfAvgs g l
      | _, _ => none

/-- Source: `TechnicalIndicators.calculate_macd` (indicators.py:112-137).
The signal line is `calculate_ema` applied to the raw `macd_line` array,
NaN warm-up entries included. -/
def calculate_macd (prices : List (Option ℚ))
    (fast_period slow_period signal_period : ℕ) :
    List (Option ℚ) × List (Option ℚ) × List (Option ℚ) :=
  let fast_ema := calculate_ema prices fast_period
  let slow_ema := calculate_ema prices slow_period
  let macd_line := List.zipWith subOpt fast_ema slow_ema
  let signal_line := calculate_ema macd_line signal_period
  let histogram := List.zipWith subOpt macd_line signal_line
  (macd_line, signal_line, histogram)

/-- `np.std(w, ddof=1)`: NaN if the window contains a NaN or has fewer
than two elements (`0/0` and the empty mean are NaN), otherwise the square
root of `Σ (x - mean)² / (n - 1)`.  The square root is irrational, hence
the `ℝ`-valued (noncomputable) result. -/
noncomputable def sampleStd (w : List (Option ℚ)) : Option ℝ :=
  match allSome w with
  | none => none
  | some ws =>
    if ws.length ≤ 1 then none
    else
      some (Real.sqrt
        (((ws.map fun x => ((x : ℝ) - (ws.sum : ℝ) / (ws.length : ℝ)) ^ 2).sum) /
          ((ws.length : ℝ) - 1)))

/-- The `rolling_std` array of `calculate_bollinger_bands`
(indicators.py:159-161). -/
noncomputable def rollingStd (prices : List (Option ℚ)) (period : ℕ) :
    List (Option ℝ) :=
  (List.range prices.length).map fun i =>
    if period - 1 ≤ i then sampleStd ((prices.drop (i + 1 - period)).take period)
    else none

/-- Cast a rational float array into the reals. -/
def q2r (l : List (Option ℚ)) : List (Option ℝ) :=
  l.map (Option.map fun q : ℚ => (q : ℝ))

/-- Source: `TechnicalIndicators.calculate_bollinger_bands`
(indicators.py:140-167): middle band is the SMA, upper/lower are
`middle ± rolling_std * num_std` with NaN propagation. -/
noncomputable def calculate_bollinger_bands (prices : List (Option ℚ))
    (period : ℕ) (num_std : ℚ) :
    List (Option ℝ) × List (Option ℝ) × List (Option ℝ) :=
  if prices.length < period then
    (List.replicate prices.length none, List.replicate prices.length none,
      List.replicate prices.length none)
  else
    let middle_band := q2r (calculate_sma prices period)
    let rolling_std := rollingStd prices period
    let upper_band := List.zipWith
      (fun mo so => mo.bind fun m => so.map fun s => m + s * (num_std : ℝ))
      middle_band rolling_std
    let lower_band := List.zipWith
      (fun mo so => mo.bind fun m => so.map fun s => m - s * (num_std : ℝ))
      middle_band rolling_std
    (upper_band, middle_band, lower_band)

/-- `np.polyfit(np.arange(n), ys, 1)[0]`: the ordinary least-squares slope
`(n·Σxy - Σx·Σy) / (n·Σx² - (Σx)²)` over `x = 0, …, n-1`, a rational
function of the window. -/
def polyfitSlope (ys : List ℚ) : ℚ :=
  let n : ℚ := ys.length
  let xs := (List.range ys.length).map fun j => (j : ℚ)
  let sx := xs.sum
  let sy := ys.sum
  let sxy := (List.zipWith (· * ·) xs ys).sum
  let sxx := (xs.map fun x => x ^ 2).sum
  (n * sxy - sx * sy) / (n * sxx - sx ^ 2)

/-- Source: `TechnicalIndicators.calculate_slope` (indicators.py:170-194).
A NaN anywhere in the window makes `np.polyfit` produce no finite slope,
modelled as `none`. -/
def calculate_slope (prices : List (Option ℚ)) (period : ℕ) : List (Option ℚ) :=
  if prices.length < period then List.replicate prices.length none
  else
    (List.range prices.length).map fun i =>
      if period - 1 ≤ i then
        (allSome ((prices.drop (i + 1 - period)).take period)).map polyfitSlope
      else none

/-- Source: class `OHLC` (ohlc.py:11-31).  Float fields are rationals
(every Python float is a dyadic rational); `open` is a Lean keyword, hence
the trailing underscore. -/
structure OHLC where
  open_ : ℚ
  high : ℚ
  low : ℚ
  close : ℚ
  timestamp : ℤ
  volume : ℚ
deriving DecidableEq

/-- Source: class `OHLCContainer` (ohlc.py:72-97): bounded candle list
plus the three cached scalars. -/
structure OHLCContainer where
  max_size : ℕ
  container : List OHLC
  last_rsi : Option ℚ
  last_moving_average : Option ℚ
  last_slope : Option ℚ
deriving DecidableEq

/-- `OHLCContainer.__init__`: empty list, caches `None`. -/
def mkContainer (max_size : ℕ) : OHLCContainer :=
  ⟨max_size, [], none, none, none⟩

/-- The Python slice `l[-n:]`, as used in `OHLCContainer.add`: for
`n = 0` the slice `l[-0:]` is `l[0:]`, the whole list; for `n ≥ 1` it is
the last `min n (len l)` elements. -/
def pySliceLast (n : ℕ) (l : List OHLC) : List OHLC :=
  if n = 0 then l else l.drop (l.length - n)

/-- Source: `OHLCContainer.add` (ohlc.py:87-97): append, then trim with
`container[-max_size:]` if the length exceeds `max_size`. -/
def OHLCContainer.add (c : OHLCContainer) (o : OHLC) : OHLCContainer :=
  let l := c.container ++ [o]
  if c.max_size < l.length then { c with container := pySliceLast c.max_size l }
  else { c with container := l }

/-- `OHLCContainer.get_close_prices` (ohlc.py:106-112). -/
def OHLCContainer.get_close_prices (c : OHLCContainer) : List ℚ :=
  c.container.map OHLC.close

/-- The write-back pattern `arr[-1] if not np.isnan(arr[-1]) else None`
of `apply_to_container` (indicators.py:221-223); the arrays there are
nonempty, so `arr[-1]` is the last element. -/
def lastIfDefined (l : List (Option ℚ)) : Option ℚ :=
  l.getLast?.join

/-- The last defined (non-NaN) value of an indicator array, or `none` if
no entry is defined — the spec's description of the cached scalars. -/
def lastDefined (l : List (Option ℚ)) : Option ℚ :=
  (l.filterMap id).getLast?

/-- Source: `TechnicalIndicators.apply_to_container`
(indicators.py:196-238): empty map and untouched store below 14 candles,
otherwise the full indicator suite, the three cache write-backs, and the
map of all eleven arrays. -/
noncomputable def apply_to_container (c : OHLCContainer) :
    List (String × List (Option ℝ)) × OHLCContainer :=
  if c.container.length < 14 then ([], c)
  else
    let closes := c.get_close_prices.map some
    let sma_20 := calculate_sma closes 20
    let ema_12 := calculate_ema closes 12
    let ema_26 := calculate_ema closes 26
    let rsi_14 := calculate_rsi closes 14
    let macd := calculate_macd closes 12 26 9
    let bands := calculate_bollinger_bands closes 20 2
    let slope_5 := calculate_slope closes 5
    ( [("sma_20", q2r sma_20), ("ema_12", q2r ema_12), ("ema_26", q2r ema_26),
       ("rsi_14", q2r rsi_14), ("macd_line", q2r macd.1),
       ("signal_line", q2r macd.2.1), ("histogram", q2r macd.2.2),
       ("upper_band", bands.1), ("middle_band", bands.2.1),
       ("lower_band", bands.2.2), ("slope_5", q2r slope_5)],
      { c with
        last_rsi := lastIfDefined rsi_14,
        last_moving_average := lastIfDefined sma_20,
        last_slope := lastIfDefined slope_5 } )

/-! ## Basic lemmas about the embedding -/

lemma range_map_getElem {α : Type} (f : ℕ → α) {n i : ℕ} (h : i < n) :
    ((List.range n).map f)[i]? = some (f i) := by
  rw [List.getElem?_map, List.getElem?_range h, Option.map_some']

lemma allSome_map_some (l : List ℚ) : allSome (l.map some) = some l := by
  induction l with
  | nil => rfl
  | cons x t ih => simp [allSome, ih]

lemma meanOptN_map_some (l : List ℚ) : meanOptN (l.map some) = meanOpt l := by
  rw [meanOptN, allSome_map_some]
  rfl

lemma meanOpt_of_ne_nil {l : List ℚ} (h : l ≠ []) :
    meanOpt l = some (l.sum / l.length) := by
  rw [meanOpt, if_neg (by simpa using h)]

lemma window_length {α : Type} (l : List α) {period i : ℕ}
    (hp : 1 ≤ period) (hi : i < l.length) (hpi : period - 1 ≤ i) :
    ((l.drop (i + 1 - period)).take period).length = period := by
  rw [List.length_take, List.length_drop]
  omega

lemma length_sma (prices : List (Option ℚ)) (period : ℕ) :
    (calculate_sma prices period).length = prices.length := by
  rw [calculate_sma]
  by_cases h : prices.length < period <;> simp [h]

lemma length_ema (prices : List (Option ℚ)) (period : ℕ) :
    (calculate_ema prices period).length = prices.length := by
  rw [calculate_ema]
  by_cases h : prices.length < period <;> simp [h]

lemma length_rsi (prices : List (Option ℚ)) (period : ℕ) :
    (calculate_rsi prices period).length = prices.length := by
  rw [calculate_rsi]
  by_cases h : prices.length ≤ period <;> simp [h]

lemma length_slope (prices : List (Option ℚ)) (period : ℕ) :
    (calculate_slope prices period).length = prices.length := by
  rw [calculate_slope]
  by_cases h : prices.length < period <;> simp [h]

lemma sma_getElem {prices : List (Option ℚ)} {period i : ℕ}
    (hlen : period ≤ prices.length) (hi : i < prices.length) :
    (calculate_sma prices period)[i]? =
      some (if period - 1 ≤ i then
        meanOptN ((prices.drop (i + 1 - period)).take period) else none) := by
  rw [calculate_sma, if_neg (by omega)]
  exact range_map_getElem _ hi

lemma slope_getElem {prices : List (Option ℚ)} {period i : ℕ}
    (hlen : period ≤ prices.length) (hi : i < prices.length) :
    (calculate_slope prices period)[i]? =
      some (if period - 1 ≤ i then
        (allSome ((prices.drop (i + 1 - period)).take period)).map polyfitSlope
        else none) := by
  rw [calculate_slope, if_neg (by omega)]
  exact range_map_getElem _ hi

lemma rsi_getElem {prices : List (Option ℚ)} {period i : ℕ}
    (hlen : period < prices.length) (hi : i < prices.length) :
    (calculate_rsi prices period)[i]? =
      some (match wilderAvg (gainsList prices) period i,
                  wilderAvg (lossList prices) period i with
            | some g, some l => rsiOfAvgs g l
            | _, _ => none) := by
  rw [calculate_rsi, if_neg (by omega)]
  exact range_map_getElem _ hi

/-! ## Container lemmas (capacity invariant) -/

lemma add_max_size (c : OHLCContainer) (o : OHLC) :
    (c.add o).max_size = c.max_size := by
  simp only [OHLCContainer.add]
  split <;> rfl

lemma pySliceLast_of_pos {n : ℕ} (h : 1 ≤ n) (l : List OHLC) :
    pySliceLast n l = l.drop (l.length - n) := by
  rw [pySliceLast, if_neg (by omega)]

lemma add_container_eq {C : ℕ} (hC : 1 ≤ C) (s : OHLCContainer) (x : OHLC)
    (hmax : s.max_size = C) (hlen : s.container.length ≤ C) :
    (s.add x).container =
      (s.container ++ [x]).drop ((s.container ++ [x]).length - C) := by
  simp only [OHLCContainer.add]
  split
  next h =>
    show pySliceLast s.max_size (s.container ++ [x]) = _
    rw [hmax]
    exact pySliceLast_of_pos hC _
  next h =>
    show s.container ++ [x] = _
    have h0 : (s.container ++ [x]).length - C = 0 := by
      simp only [List.length_append, List.length_singleton] at h ⊢
      omega
    rw [h0, List.drop_zero]

lemma add_foldl_container {C : ℕ} (hC : 1 ≤ C) :
    ∀ (xs : List OHLC) (s : OHLCContainer), s.max_size = C →
      s.container.length ≤ C →
      (xs.foldl OHLCContainer.add s).container =
        (s.container ++ xs).drop ((s.container ++ xs).length - C) := by
  intro xs
  induction xs with
  | nil =>
    intro s hmax hlen
    simp only [List.foldl_nil, List.append_nil]
    rw [Nat.sub_eq_zero_of_le hlen, List.drop_zero]
  | cons x xs ih =>
    intro s hmax hlen
    rw [List.foldl_cons]
    have hmax1 : (s.add x).max_size = C := by rw [add_max_size, hmax]
    have hadd := add_container_eq hC s x hmax hlen
    have hlen1 : (s.add x).container.length ≤ C := by
      rw [hadd, List.length_drop]
      omega
    rw [ih (s.add x) hmax1 hlen1, hadd]
    have e1 : ((s.container ++ [x]).drop ((s.container ++ [x]).length - C)) ++ xs =
        ((s.container ++ [x]) ++ xs).drop ((s.container ++ [x]).length - C) := by
      rw [List.drop_append_of_le_length (Nat.sub_le (s.container ++ [x]).length C)]
    have e2 : s.container ++ x :: xs = (s.container ++ [x]) ++ xs := by simp
    rw [e1, List.drop_drop, e2]
    congr 1
    simp only [List.length_drop, List.length_append, List.length_singleton]
    omega

/-! ## Unfolding lemmas for the recursive indicator kernels -/

lemma wilderAvg_zero (xs : List ℚ) (period : ℕ) :
    wilderAvg xs period 0 = none := by
  rcases period with _ | p
  · simp [wilderAvg, meanOpt]
  · simp [wilderAvg]

lemma wilderAvg_warm (xs : List ℚ) (period : ℕ) (hp : 1 ≤ period) :
    wilderAvg xs period period = meanOpt ((xs.drop 1).take period) := by
  rcases period with _ | p
  · omega
  · simp [wilderAvg]

lemma wilderAvg_rec (xs : List ℚ) {period i : ℕ} (h : period < i + 1) :
    wilderAvg xs period (i + 1) =
      (wilderAvg xs period i).bind fun prev =>
        (xs.get? (i + 1)).map fun g =>
          (prev * ((period : ℚ) - 1) + g) / period := by
  simp only [wilderAvg]
  rw [if_neg (by omega), if_neg (by omega)]

lemma wilderAvg_before (xs : List ℚ) {period i : ℕ} (h : i < period) :
    wilderAvg xs period i = none := by
  rcases i with _ | j
  · exact wilderAvg_zero xs period
  · simp only [wilderAvg]
    rw [if_pos (by omega)]

lemma emaAt_warm (prices : List (Option ℚ)) {period : ℕ} (hp : 1 ≤ period) :
    emaAt prices period (period - 1) = meanOptN (prices.take period) := by
  rcases period with _ | p
  · omega
  rcases p with _ | q
  · simp [emaAt]
  · show emaAt prices (q + 2) (q + 1) = _
    simp [emaAt]

lemma emaAt_before (prices : List (Option ℚ)) {period i : ℕ}
    (h : i + 1 < period) : emaAt prices period i = none := by
  rcases i with _ | j
  · simp only [emaAt]
    rw [if_neg (by omega)]
  · simp only [emaAt]
    rw [if_pos (by omega), if_neg (by omega)]

lemma wilderAvg_some_ge {xs : List ℚ} {period i : ℕ} {g : ℚ}
    (h : wilderAvg xs period i = some g) : period ≤ i := by
  by_contra hlt
  rw [wilderAvg_before xs (by omega)] at h
  exact Option.noConfusion h

/-! ## Nonnegativity of the smoothed averages -/

lemma sum_nonneg_of_mem {l : List ℚ} (h : ∀ a ∈ l, 0 ≤ a) : 0 ≤ l.sum := by
  induction l with
  | nil => simp
  | cons x t ih =>
    rw [List.sum_cons]
    have hx := h x (List.mem_cons_self x t)
    have ht := ih fun a ha => h a (List.mem_cons_of_mem x ha)
    linarith

lemma meanOpt_nonneg {l : List ℚ} (h : ∀ a ∈ l, 0 ≤ a) {g : ℚ}
    (hg : meanOpt l = some g) : 0 ≤ g := by
  rw [meanOpt] at hg
  by_cases he : l.isEmpty
  · rw [if_pos he] at hg; exact Option.noConfusion hg
  · rw [if_neg he] at hg
    have : g = l.sum / l.length := (Option.some.injEq _ _).mp hg.symm
    rw [this]
    exact div_nonneg (sum_nonneg_of_mem h) (by positivity)

lemma wilderAvg_nonneg {xs : List ℚ} (hxs : ∀ a ∈ xs, 0 ≤ a) (period : ℕ) :
    ∀ i, ∀ g, wilderAvg xs period i = some g → 0 ≤ g := by
  intro i
  induction i with
  | zero =>
    intro g hg
    rw [wilderAvg_zero] at hg
    exact Option.noConfusion hg
  | succ i ih =>
    intro g hg
    by_cases h1 : i + 1 < period
    · rw [wilderAvg_before xs h1] at hg
      exact Option.noConfusion hg
    by_cases h2 : i + 1 = period
    · rw [h2, wilderAvg_warm xs period (by omega)] at hg
      refine meanOpt_nonneg (fun a ha => ?_) hg
      exact hxs a (List.mem_of_mem_drop (List.mem_of_mem_take ha))
    · rw [wilderAvg_rec xs (by omega)] at hg
      rcases Option.bind_eq_some.mp hg with ⟨prev, hprev, hmap⟩
      rcases Option.map_eq_some'.mp hmap with ⟨a, ha, hval⟩
      have hprev0 : 0 ≤ prev := ih prev hprev
      have ha0 : 0 ≤ a := hxs a (List.get?_mem ha)
      rw [← hval]
      rcases period with _ | p
      · simp
      · have hp1 : (1 : ℚ) ≤ ((p + 1 : ℕ) : ℚ) := by
          push_cast; linarith [Nat.cast_nonneg (α := ℚ) p]
        refine div_nonneg ?_ (by positivity)
        have : (0 : ℚ) ≤ prev * (((p + 1 : ℕ) : ℚ) - 1) :=
          mul_nonneg hprev0 (by linarith)
        linarith

lemma gainsList_nonneg (prices : List (Option ℚ)) :
    ∀ a ∈ gainsList prices, 0 ≤ a := by
  intro a ha
  rw [gainsList, List.mem_cons] at ha
  rcases ha with h | h
  · exact le_of_eq h.symm
  · rcases List.mem_map.mp h with ⟨d, _, hd⟩
    rcases d with _ | x
    · exact le_of_eq hd
    · rw [← hd]
      show (0 : ℚ) ≤ if 0 < x then x else 0
      by_cases hx : 0 < x
      · rw [if_pos hx]; exact le_of_lt hx
      · rw [if_neg hx]

lemma lossList_nonneg (prices : List (Option ℚ)) :
    ∀ a ∈ lossList prices, 0 ≤ a := by
  intro a ha
  rw [lossList, List.mem_cons] at ha
  rcases ha with h | h
  · exact le_of_eq h.symm
  · rcases List.mem_map.mp h with ⟨d, _, hd⟩
    rcases d with _ | x
    · exact le_of_eq hd
    · rw [← hd]
      show (0 : ℚ) ≤ if x < 0 then -x else 0
      by_cases hx : x < 0
      · rw [if_pos hx]; linarith
      · rw [if_neg hx]

lemma npDiff_length (prices : List (Option ℚ)) :
    (npDiff prices).length = prices.length - 1 := by
  rw [npDiff, List.length_zipWith, List.length_tail]
  omega

lemma gainsList_length (prices : List (Option ℚ)) :
    (gainsList prices).length = (npDiff prices).length + 1 := by
  rw [gainsList, List.length_cons, List.length_map]

lemma lossList_length (prices : List (Option ℚ)) :
    (lossList prices).length = (npDiff prices).length + 1 := by
  rw [lossList, List.length_cons, List.length_map]

lemma rsiOfAvgs_bounds {g l x : ℚ} (hg : 0 ≤ g) (hl : 0 ≤ l)
    (h : rsiOfAvgs g l = some x) : 0 ≤ x ∧ x ≤ 100 := by
  rw [rsiOfAvgs] at h
  by_cases hl0 : l ≠ 0
  · rw [if_pos hl0] at h
    have hx : x = 100 - 100 / (1 + g / l) :=
      ((Option.some.injEq _ _).mp h).symm
    have hgl : 0 ≤ g / l := div_nonneg hg hl
    have h2 : 0 < 100 / (1 + g / l) := div_pos (by norm_num) (by linarith)
    have h3 : 100 / (1 + g / l) ≤ 100 :=
      div_le_self (by norm_num) (by linarith)
    rw [hx]
    constructor <;> linarith
  · rw [if_neg hl0] at h
    by_cases hg0 : g ≠ 0
    · rw [if_pos hg0] at h
      have hx : x = 100 := ((Option.some.injEq _ _).mp h).symm
      rw [hx]
      norm_num
    · rw [if_neg hg0] at h
      exact Option.noConfusion h

lemma rsiOfAvgs_sum_pos {g l x : ℚ} (hg : 0 ≤ g) (hl : 0 ≤ l)
    (h : rsiOfAvgs g l = some x) : 0 < g + l := by
  rw [rsiOfAvgs] at h
  by_cases hl0 : l ≠ 0
  · have : 0 < l := lt_of_le_of_ne hl (Ne.symm hl0)
    linarith
  · rw [if_neg hl0] at h
    by_cases hg0 : g ≠ 0
    · have : 0 < g := lt_of_le_of_ne hg (Ne.symm hg0)
      linarith
    · rw [if_neg hg0] at h
      exact Option.noConfusion h

lemma rsiOfAvgs_isSome_of_sum_pos {g l : ℚ} (hl : 0 ≤ l) (h : 0 < g + l) :
    ∃ x, rsiOfAvgs g l = some x := by
  rw [rsiOfAvgs]
  by_cases hl0 : l ≠ 0
  · exact ⟨_, by rw [if_pos hl0]⟩
  · have hg0 : g ≠ 0 := by
      intro hg
      rw [hg] at h
      rw [not_not] at hl0
      rw [hl0] at h
      linarith
    exact ⟨100, by rw [if_neg hl0, if_pos hg0]⟩

lemma rsi_entry_some {prices : List (Option ℚ)} {period i : ℕ} {x : ℚ}
    (h : (calculate_rsi prices period)[i]? = some (some x)) :
    period < prices.length ∧ i < prices.length ∧
      ∃ g l, wilderAvg (gainsList prices) period i = some g ∧
        wilderAvg (lossList prices) period i = some l ∧
        rsiOfAvgs g l = some x := by
  by_cases hlen : prices.length ≤ period
  · rw [calculate_rsi, if_pos hlen] at h
    rcases Nat.lt_or_ge i prices.length with hi | hi
    · rw [List.getElem?_replicate_of_lt hi] at h
      exact Option.noConfusion ((Option.some.injEq _ _).mp h)
    · rw [List.getElem?_eq_none (by simpa using hi)] at h
      exact Option.noConfusion h
  · rcases Nat.lt_or_ge i prices.length with hi | hi
    · rw [rsi_getElem (by omega) hi] at h
      have hm := (Option.some.injEq _ _).mp h
      rcases hg : wilderAvg (gainsList prices) period i with _ | g
      · rw [hg] at hm
        exact Option.noConfusion hm
      · rcases hl : wilderAvg (lossList prices) period i with _ | l
        · rw [hg, hl] at hm
          exact Option.noConfusion hm
        · rw [hg, hl] at hm
          exact ⟨by omega, hi, g, l, rfl, rfl, hm⟩
    · rw [List.getElem?_eq_none (by rw [length_rsi]; omega)] at h
      exact Option.noConfusion h

/-! ## The defined region of the RSI array is a suffix (for period ≥ 2) -/

lemma wilderAvg_isSome {xs : List ℚ} {period : ℕ} (hp : 1 ≤ period)
    (hxs : period + 1 ≤ xs.length) :
    ∀ j, period ≤ j → j < xs.length → ∃ g, wilderAvg xs period j = some g := by
  intro j
  induction j with
  | zero =>
    intro h0 _
    exfalso
    omega
  | succ j ih =>
    intro hpj hj
    by_cases he : j + 1 = period
    · rw [he, wilderAvg_warm xs period hp]
      have hlen : ((xs.drop 1).take period).length = period := by
        rw [List.length_take, List.length_drop]
        omega
      have hne : (xs.drop 1).take period ≠ [] := by
        intro hnil
        rw [hnil] at hlen
        simp at hlen
        omega
      rw [meanOpt_of_ne_nil hne]
      exact ⟨_, rfl⟩
    · rcases ih (by omega) (by omega) with ⟨prev, hprev⟩
      rw [wilderAvg_rec xs (by omega), hprev]
      have hget : xs.get? (j + 1) = some (xs.get ⟨j + 1, hj⟩) :=
        List.get?_eq_get hj
      rw [hget]
      exact ⟨_, rfl⟩

lemma rsi_defined_chain {prices : List (Option ℚ)} {period : ℕ}
    (hp : 2 ≤ period) {i : ℕ} {x : ℚ}
    (hx : (calculate_rsi prices period)[i]? = some (some x)) :
    ∀ j, i ≤ j → j < prices.length →
      ∃ y, (calculate_rsi prices period)[j]? = some (some y) := by
  rcases rsi_entry_some hx with ⟨hlen, hi, g, l, hg, hl, hr⟩
  have glen : (gainsList prices).length = prices.length := by
    rw [gainsList_length, npDiff_length]
    omega
  have llen : (lossList prices).length = prices.length := by
    rw [lossList_length, npDiff_length]
    omega
  have hgn : 0 ≤ g := wilderAvg_nonneg (gainsList_nonneg prices) period i g hg
  have hln : 0 ≤ l := wilderAvg_nonneg (lossList_nonneg prices) period i l hl
  have hpos : 0 < g + l := rsiOfAvgs_sum_pos hgn hln hr
  have hper : period ≤ i := wilderAvg_some_ge hg
  have key : ∀ j, i ≤ j → j < prices.length →
      ∃ g2 l2, wilderAvg (gainsList prices) period j = some g2 ∧
        wilderAvg (lossList prices) period j = some l2 ∧ 0 < g2 + l2 := by
    intro j
    induction j with
    | zero =>
      intro hij _
      exfalso
      omega
    | succ j ih =>
      intro hij hj
      by_cases hji : i = j + 1
      · rw [← hji]
        exact ⟨g, l, hg, hl, hpos⟩
      · rcases ih (by omega) (by omega) with ⟨g2, l2, hg2, hl2, hpos2⟩
        have hlt : period < j + 1 := by omega
        have hjg : j + 1 < (gainsList prices).length := by omega
        have hjl : j + 1 < (lossList prices).length := by omega
        set a := (gainsList prices).get ⟨j + 1, hjg⟩ with haa
        set b := (lossList prices).get ⟨j + 1, hjl⟩ with hbb
        have ha0 : 0 ≤ a :=
          gainsList_nonneg prices a (List.get_mem _ _ hjg)
        have hb0 : 0 ≤ b :=
          lossList_nonneg prices b (List.get_mem _ _ hjl)
        have hpq : (2 : ℚ) ≤ (period : ℚ) := by exact_mod_cast hp
        refine ⟨(g2 * ((period : ℚ) - 1) + a) / period,
                (l2 * ((period : ℚ) - 1) + b) / period, ?_, ?_, ?_⟩
        · rw [wilderAvg_rec _ hlt, hg2, List.get?_eq_get hjg]
          rfl
        · rw [wilderAvg_rec _ hlt, hl2, List.get?_eq_get hjl]
          rfl
        · rw [div_add_div_same (g2 * ((period : ℚ) - 1) + a)
            (l2 * ((period : ℚ) - 1) + b) (period : ℚ)]
          apply div_pos
          · nlinarith
          · linarith
  intro j hij hj
  rcases key j hij hj with ⟨g2, l2, hg2, hl2, hpos2⟩
  have hln2 : 0 ≤ l2 := wilderAvg_nonneg (lossList_nonneg prices) period j l2 hl2
  rcases rsiOfAvgs_isSome_of_sum_pos hln2 hpos2 with ⟨y, hy⟩
  refine ⟨y, ?_⟩
  rw [rsi_getElem hlen hj, hg2, hl2]
  show some (rsiOfAvgs g2 l2) = some (some y)
  exact congrArg some hy

/-! ## Last element versus last defined value -/

lemma lastIfDefined_eq_lastDefined (l : List (Option ℚ))
    (h : ∀ i : ℕ, ∀ x : ℚ, l[i]? = some (some x) →
      ∃ y, l[l.length - 1]? = some (some y)) :
    lastIfDefined l = lastDefined l := by
  rcases hl : l.getLast? with _ | e
  · have hnil : l = [] := List.getLast?_eq_none_iff.mp hl
    rw [hnil]
    rfl
  · have hne : l ≠ [] := by
      intro h0
      rw [h0] at hl
      exact Option.noConfusion hl
    rcases e with _ | x
    · have hnone : ∀ a ∈ l, id a = none := by
        intro a ha
        rcases a with _ | z
        · rfl
        · exfalso
          rcases List.getElem?_of_mem ha with ⟨i, hi⟩
          rcases h i z hi with ⟨y, hy⟩
          rw [← List.getLast?_eq_getElem? l, hl] at hy
          exact Option.noConfusion ((Option.some.injEq _ _).mp hy)
      rw [lastIfDefined, hl, lastDefined,
        List.filterMap_eq_nil_iff.mpr hnone]
      rfl
    · have hgl : l.getLast hne = some x := by
        have := List.getLast?_eq_getLast l hne
        rw [hl] at this
        exact ((Option.some.injEq _ _).mp this).symm
      have hconcat : l.dropLast ++ [some x] = l := by
        rw [← hgl]
        exact List.dropLast_append_getLast hne
      rw [lastIfDefined, hl, lastDefined, ← hconcat, List.filterMap_append]
      show some x = (List.filterMap id l.dropLast ++ [x]).getLast?
      rw [List.getLast?_concat]

lemma allSome_window (ps : List ℚ) (k n : ℕ) :
    allSome (((ps.map some).drop k).take n) = some ((ps.drop k).take n) := by
  rw [← List.map_drop, ← List.map_take, allSome_map_some]

lemma ema_getElem {prices : List (Option ℚ)} {period i : ℕ}
    (hlen : period ≤ prices.length) (hi : i < prices.length) :
    (calculate_ema prices period)[i]? = some (emaAt prices period i) := by
  rw [calculate_ema, if_neg (by omega)]
  exact range_map_getElem _ hi

lemma sma_pure_defined (ps : List ℚ) {period i : ℕ} (hp : 1 ≤ period)
    (hlen : period ≤ ps.length) (hpi : period - 1 ≤ i) (hi : i < ps.length) :
    (calculate_sma (ps.map some) period)[i]? =
      some (some (((ps.drop (i + 1 - period)).take period).sum / period)) := by
  have hl : (ps.map some).length = ps.length := List.length_map ps some
  rw [sma_getElem (by omega) (by omega), if_pos hpi]
  rw [meanOptN, allSome_window]
  have hw : ((ps.drop (i + 1 - period)).take period).length = period :=
    window_length ps hp hi hpi
  have hne : (ps.drop (i + 1 - period)).take period ≠ [] := by
    intro h0
    rw [h0] at hw
    simp at hw
    omega
  show some (meanOpt ((ps.drop (i + 1 - period)).take period)) = _
  rw [meanOpt_of_ne_nil hne, hw]

lemma slope_pure_defined (ps : List ℚ) {period i : ℕ}
    (hlen : period ≤ ps.length) (hpi : period - 1 ≤ i) (hi : i < ps.length) :
    (calculate_slope (ps.map some) period)[i]? =
      some (some (polyfitSlope ((ps.drop (i + 1 - period)).take period))) := by
  have hl : (ps.map some).length = ps.length := List.length_map ps some
  rw [slope_getElem (by omega) (by omega), if_pos hpi, allSome_window]
  rfl

lemma rsi14_last (ps : List ℚ) :
    lastIfDefined (calculate_rsi (ps.map some) 14) =
      lastDefined (calculate_rsi (ps.map some) 14) := by
  apply lastIfDefined_eq_lastDefined
  intro i x hx
  rcases rsi_entry_some hx with ⟨h14, hi, _⟩
  have hchain := rsi_defined_chain (by norm_num) hx ((ps.map some).length - 1)
    (by omega) (by omega)
  rw [length_rsi]
  exact hchain

lemma sma20_last (ps : List ℚ) :
    lastIfDefined (calculate_sma (ps.map some) 20) =
      lastDefined (calculate_sma (ps.map some) 20) := by
  apply lastIfDefined_eq_lastDefined
  intro i x hx
  by_cases h : (ps.map some).length < 20
  · rw [calculate_sma, if_pos h] at hx
    rcases Nat.lt_or_ge i (ps.map some).length with hi | hi
    · rw [List.getElem?_replicate_of_lt hi] at hx
      exact Option.noConfusion ((Option.some.injEq _ _).mp hx)
    · rw [List.getElem?_eq_none (by simpa using hi)] at hx
      exact Option.noConfusion hx
  · have hlen20 : 20 ≤ ps.length := by
      have := List.length_map ps some
      omega
    rw [length_sma, List.length_map]
    exact ⟨_, sma_pure_defined ps (by norm_num) hlen20 (by omega) (by omega)⟩

lemma slope5_last (ps : List ℚ) (hlen : 5 ≤ ps.length) :
    lastIfDefined (calculate_slope (ps.map some) 5) =
      lastDefined (calculate_slope (ps.map some) 5) := by
  apply lastIfDefined_eq_lastDefined
  intro i x hx
  rw [length_slope, List.length_map]
  exact ⟨_, slope_pure_defined ps hlen (by omega) (by omega)⟩

/-! ## zipWith pointwise lemmas (for MACD and the Bollinger bands) -/

lemma zipWith_getElem_some {α β γ : Type} (f : α → β → γ) :
    ∀ (a : List α) (b : List β) (i : ℕ) (x : α) (y : β),
      a[i]? = some x → b[i]? = some y →
      (List.zipWith f a b)[i]? = some (f x y) := by
  intro a
  induction a with
  | nil =>
    intro b i x y hx _
    simp at hx
  | cons ahd atl ih =>
    intro b i x y hx hy
    rcases b with _ | ⟨bhd, btl⟩
    · simp at hy
    · rcases i with _ | j
      · simp at hx hy
        rw [List.zipWith_cons_cons]
        rw [hx, hy]
        exact List.getElem?_cons_zero
      · rw [List.zipWith_cons_cons]
        simp only [List.getElem?_cons_succ] at hx hy ⊢
        exact ih btl j x y hx hy

lemma zipWith_getElem_inv {α β γ : Type} (f : α → β → γ) :
    ∀ (a : List α) (b : List β) (i : ℕ) (v : γ),
      (List.zipWith f a b)[i]? = some v →
      ∃ x y, a[i]? = some x ∧ b[i]? = some y ∧ v = f x y := by
  intro a
  induction a with
  | nil =>
    intro b i v hv
    simp at hv
  | cons ahd atl ih =>
    intro b i v hv
    rcases b with _ | ⟨bhd, btl⟩
    · simp at hv
    · rw [List.zipWith_cons_cons] at hv
      rcases i with _ | j
      · simp at hv
        exact ⟨ahd, bhd, List.getElem?_cons_zero, List.getElem?_cons_zero,
          hv.symm⟩
      · simp only [List.getElem?_cons_succ] at hv ⊢
        exact ih btl j v hv

lemma sampleStd_nonneg {w : List (Option ℚ)} {s : ℝ}
    (h : sampleStd w = some s) : 0 ≤ s := by
  rw [sampleStd] at h
  split at h
  · exact Option.noConfusion h
  · split at h
    · exact Option.noConfusion h
    · have hs := ((Option.some.injEq _ _).mp h).symm
      rw [hs]
      exact Real.sqrt_nonneg _

lemma rollingStd_length (prices : List (Option ℚ)) (period : ℕ) :
    (rollingStd prices period).length = prices.length := by
  rw [rollingStd]
  simp

lemma length_q2r (l : List (Option ℚ)) : (q2r l).length = l.length := by
  rw [q2r, List.length_map]

/-! ## Claim theorems -/

set_option maxRecDepth 100000 in
/-- C1: the spec says the MACD signal line is the EMA of the defined
region of the MACD line, becoming defined once 9 defined MACD values
exist.  The code instead feeds the raw MACD array (NaN warm-up included)
into `calculate_ema`, whose warm-start mean over the first 9 entries is
then NaN, poisoning every later entry: on 40 candles of constant close
100 the MACD line is defined (value 0) from index 25 on, yet the signal
line and histogram are NaN everywhere. -/
theorem macd_signal_line_never_defined :
    (calculate_macd (List.replicate 40 (some (100 : ℚ))) 12 26 9).1 =
      List.replicate 25 none ++ List.replicate 15 (some 0) ∧
    (calculate_macd (List.replicate 40 (some (100 : ℚ))) 12 26 9).2.1 =
      List.replicate 40 none ∧
    (calculate_macd (List.replicate 40 (some (100 : ℚ))) 12 26 9).2.2 =
      List.replicate 40 none := by with_unfolding_all decide

/-- C2 counterexample: on 15 candles of constant close 100 both smoothed
averages at index 14 are 0, and the code's RSI entry there is NaN
(`0/0`), not the claimed 50. -/
theorem rsi_all_zero_counterexample :
    (calculate_rsi (List.replicate 15 (some (100 : ℚ))) 14)[14]? =
      some none := by with_unfolding_all decide

/-- C2 (amended): at an index whose smoothed averages are defined, the
code yields RSI = 100 when `avgLoss = 0 < avgGain` (via `rs = +inf`), an
undefined (NaN) entry when both averages are 0 — not 50 — and a defined
finite value whenever `avgLoss ≠ 0`. -/
theorem rsi_zero_loss_policy (prices : List (Option ℚ)) (period i : ℕ)
    (g l : ℚ) (hlen : period < prices.length) (hi : i < prices.length)
    (hg : wilderAvg (gainsList prices) period i = some g)
    (hl : wilderAvg (lossList prices) period i = some l) :
    (l = 0 → g ≠ 0 → (calculate_rsi prices period)[i]? = some (some 100)) ∧
    (l = 0 → g = 0 → (calculate_rsi prices period)[i]? = some none) ∧
    (l ≠ 0 → ∃ x : ℚ, (calculate_rsi prices period)[i]? = some (some x)) := by
  have hbase : (calculate_rsi prices period)[i]? = some (rsiOfAvgs g l) := by
    rw [rsi_getElem hlen hi, hg, hl]
  refine ⟨?_, ?_, ?_⟩
  · intro h1 h2
    rw [hbase, rsiOfAvgs, if_neg (by rw [h1]; exact not_not_intro rfl),
      if_pos h2]
  · intro h1 h2
    rw [hbase, rsiOfAvgs, if_neg (by rw [h1]; exact not_not_intro rfl),
      if_neg (not_not_intro h2)]
  · intro h1
    exact ⟨_, by rw [hbase, rsiOfAvgs, if_pos h1]⟩

/-- C2 witness: on prices `[1, 2]` with period 1 the averages at index 1
are `gain = 1`, `loss = 0`, and the RSI entry is 100. -/
theorem rsi_zero_loss_policy_witness :
    (calculate_rsi [some (1 : ℚ), some 2] 1)[1]? = some (some 100) :=
  (rsi_zero_loss_policy [some (1 : ℚ), some 2] 1 1 1 0 (by with_unfolding_all decide) (by with_unfolding_all decide)
    (by with_unfolding_all decide) (by with_unfolding_all decide)).1 rfl (by with_unfolding_all decide)

/-- C3: `apply_to_container` on a store with fewer than 14 candles
returns the empty map and the store itself, so the cached scalars keep
their prior values. -/
theorem evaluate_insufficient_data (c : OHLCContainer)
    (h : c.container.length < 14) :
    apply_to_container c = ([], c) := by
  rw [apply_to_container, if_pos h]

/-- C3 witness: a freshly created store (capacity 1000, no candles). -/
theorem evaluate_insufficient_data_witness :
    apply_to_container (mkContainer 1000) = ([], mkContainer 1000) :=
  evaluate_insufficient_data (mkContainer 1000) (by with_unfolding_all decide)

/-- C5: every defined entry of the RSI array lies in `[0, 100]`. -/
theorem rsi_defined_in_range (prices : List (Option ℚ)) (period i : ℕ)
    (x : ℚ) (h : (calculate_rsi prices period)[i]? = some (some x)) :
    0 ≤ x ∧ x ≤ 100 := by
  rcases rsi_entry_some h with ⟨_, _, g, l, hg, hl, hr⟩
  exact rsiOfAvgs_bounds
    (wilderAvg_nonneg (gainsList_nonneg prices) period i g hg)
    (wilderAvg_nonneg (lossList_nonneg prices) period i l hl) hr

/-- C5 witness: the defined entry 100 of `RSI([1, 2], 1)` at index 1. -/
theorem rsi_defined_in_range_witness : 0 ≤ (100 : ℚ) ∧ (100 : ℚ) ≤ 100 :=
  rsi_defined_in_range [some (1 : ℚ), some 2] 1 1 100 (by with_unfolding_all decide)

/-- C10: a series whose length equals the period yields an entirely
undefined RSI array of the same length, so a defined RSI entry forces
`len(series) ≥ period + 1`. -/
theorem rsi_needs_period_plus_one :
    (∀ (prices : List (Option ℚ)) (period : ℕ), prices.length = period →
      calculate_rsi prices period = List.replicate prices.length none) ∧
    (∀ (prices : List (Option ℚ)) (period i : ℕ) (x : ℚ),
      (calculate_rsi prices period)[i]? = some (some x) →
      period + 1 ≤ prices.length) := by
  constructor
  · intro prices period h
    rw [calculate_rsi, if_pos (le_of_eq h)]
  · intro prices period i x h
    exact (rsi_entry_some h).1

/-- C10 witness: three prices with period 3 give `[NaN, NaN, NaN]`. -/
theorem rsi_needs_period_plus_one_witness :
    calculate_rsi [some (1 : ℚ), some 2, some 3] 3 =
      List.replicate [some (1 : ℚ), some 2, some 3].length none :=
  rsi_needs_period_plus_one.1 [some (1 : ℚ), some 2, some 3] 3 rfl

/-- C4 counterexample: a store created with capacity 0 grows instead of
staying empty, because the Python trim `container[-0:]` is the whole
list: after appending one candle (N = 1 > C = 0) the length is 1, not
0. -/
theorem container_capacity_zero_counterexample :
    ¬ (([(⟨1, 2, 0, 1, 0, 3⟩ : OHLC)].foldl OHLCContainer.add
        (mkContainer 0)).container.length = 0) := by
  with_unfolding_all decide

/-- C4 (amended): for every capacity `C ≥ 1`, appending `N > C` candles
into a fresh store leaves exactly the last `C` appended candles in their
original relative order (`add` itself is total, with no error path); for
`C = 0` the trim slice `container[-0:]` is the whole list and the store
grows unboundedly. -/
theorem container_capacity (C : ℕ) (xs : List OHLC) (hC : 1 ≤ C)
    (hN : C < xs.length) :
    (xs.foldl OHLCContainer.add (mkContainer C)).container =
      xs.drop (xs.length - C) ∧
    (xs.foldl OHLCContainer.add (mkContainer C)).container.length = C := by
  have h := add_foldl_container hC xs (mkContainer C) rfl (by
    show (List.length []) ≤ C
    simp)
  rw [show (mkContainer C).container = [] from rfl, List.nil_append] at h
  refine ⟨h, ?_⟩
  rw [h, List.length_drop]
  omega

/-- C4 witness: capacity 1, two appended candles; the store keeps only
the second. -/
theorem container_capacity_witness :
    ([(⟨1, 2, 0, 1, 0, 3⟩ : OHLC), ⟨2, 3, 1, 2, 1, 4⟩].foldl
        OHLCContainer.add (mkContainer 1)).container =
      [(⟨1, 2, 0, 1, 0, 3⟩ : OHLC), ⟨2, 3, 1, 2, 1, 4⟩].drop
        ([(⟨1, 2, 0, 1, 0, 3⟩ : OHLC), ⟨2, 3, 1, 2, 1, 4⟩].length - 1) ∧
    ([(⟨1, 2, 0, 1, 0, 3⟩ : OHLC), ⟨2, 3, 1, 2, 1, 4⟩].foldl
        OHLCContainer.add (mkContainer 1)).container.length = 1 :=
  container_capacity 1 [⟨1, 2, 0, 1, 0, 3⟩, ⟨2, 3, 1, 2, 1, 4⟩]
    (by with_unfolding_all decide) (by with_unfolding_all decide)

/-- C6: for a pure series with `len ≥ period ≥ 1`, the SMA entry at each
index `i ≥ period-1` is the arithmetic mean of the trailing window
`series[i-period+1..i]`, all earlier entries are undefined, the output
always has the input's length, a short series gives an entirely
undefined output, and `SMA([1,2,3,4,5], 3) = [undef, undef, 2, 3, 4]`. -/
theorem sma_window_mean :
    (∀ (ps : List ℚ) (period i : ℕ), 1 ≤ period → period ≤ ps.length →
      (period - 1 ≤ i → i < ps.length →
        (calculate_sma (ps.map some) period)[i]? =
          some (some (((ps.drop (i + 1 - period)).take period).sum / period))) ∧
      (i < period - 1 →
        (calculate_sma (ps.map some) period)[i]? = some none)) ∧
    (∀ (prices : List (Option ℚ)) (period : ℕ), prices.length < period →
      calculate_sma prices period = List.replicate prices.length none) ∧
    (∀ (prices : List (Option ℚ)) (period : ℕ),
      (calculate_sma prices period).length = prices.length) ∧
    calculate_sma ([1, 2, 3, 4, 5].map some) 3 =
      [none, none, some 2, some 3, some 4] := by
  refine ⟨?_, ?_, ?_, ?_⟩
  · intro ps period i hp hlen
    constructor
    · intro hpi hi
      exact sma_pure_defined ps hp hlen hpi hi
    · intro hi
      have hl : (ps.map some).length = ps.length := List.length_map ps some
      rw [sma_getElem (by omega) (by omega), if_neg (by omega)]
  · intro prices period h
    rw [calculate_sma, if_pos h]
  · intro prices period
    exact length_sma prices period
  · with_unfolding_all decide

/-- C6 witness: `SMA([1,2,3], 3)` at index 2 is the mean of the full
window. -/
theorem sma_window_mean_witness :
    (calculate_sma ([1, 2, 3].map some) 3)[2]? =
      some (some ((([1, 2, 3].drop (2 + 1 - 3)).take 3).sum / 3)) :=
  (sma_window_mean.1 [1, 2, 3] 3 2 (by with_unfolding_all decide)
    (by with_unfolding_all decide)).1 (by with_unfolding_all decide)
    (by with_unfolding_all decide)

/-- C7: for `1 ≤ period ≤ len`, the first defined EMA entry, at index
`period - 1`, equals the first defined SMA entry there: the arithmetic
mean of the first `period` elements. -/
theorem ema_sma_warm_start (ps : List ℚ) (period : ℕ) (h1 : 1 ≤ period)
    (h2 : period ≤ ps.length) :
    (calculate_ema (ps.map some) period)[period - 1]? =
      some (some ((ps.take period).sum / period)) ∧
    (calculate_sma (ps.map some) period)[period - 1]? =
      some (some ((ps.take period).sum / period)) := by
  have hl : (ps.map some).length = ps.length := List.length_map ps some
  have htl : (ps.take period).length = period := by
    rw [List.length_take]
    omega
  have hne : ps.take period ≠ [] := by
    intro h0
    rw [h0] at htl
    simp at htl
    omega
  constructor
  · rw [ema_getElem (by omega) (by omega), emaAt_warm _ h1,
      ← List.map_take, meanOptN_map_some, meanOpt_of_ne_nil hne, htl]
  · have := sma_pure_defined ps h1 h2 (le_refl (period - 1)) (by omega)
    rw [show period - 1 + 1 - period = 0 by omega, List.drop_zero] at this
    exact this

/-- C7 witness: `[1, 2]` with period 2; both warm starts are `3/2`. -/
theorem ema_sma_warm_start_witness :
    (calculate_ema ([1, 2].map some) 2)[2 - 1]? =
      some (some (([1, 2].take 2).sum / 2)) ∧
    (calculate_sma ([1, 2].map some) 2)[2 - 1]? =
      some (some (([1, 2].take 2).sum / 2)) :=
  ema_sma_warm_start [1, 2] 2 (by with_unfolding_all decide)
    (by with_unfolding_all decide)

lemma rollingStd_getElem {prices : List (Option ℚ)} {period i : ℕ}
    (hi : i < prices.length) :
    (rollingStd prices period)[i]? =
      some (if period - 1 ≤ i then
        sampleStd ((prices.drop (i + 1 - period)).take period) else none) := by
  rw [rollingStd]
  exact range_map_getElem _ hi

lemma rollingStd_entry_some {prices : List (Option ℚ)} {period i : ℕ} {s : ℝ}
    (h : (rollingStd prices period)[i]? = some (some s)) :
    sampleStd ((prices.drop (i + 1 - period)).take period) = some s := by
  have hi : i < prices.length := by
    by_contra hge
    rw [List.getElem?_eq_none (by rw [rollingStd_length]; omega)] at h
    exact Option.noConfusion h
  rw [rollingStd_getElem hi] at h
  have h2 := (Option.some.injEq _ _).mp h
  by_cases hc : period - 1 ≤ i
  · rw [if_pos hc] at h2
    exact h2
  · rw [if_neg hc] at h2
    exact Option.noConfusion h2

lemma bollinger_unfold {prices : List (Option ℚ)} {period : ℕ} (k : ℚ)
    (hlen : period ≤ prices.length) :
    calculate_bollinger_bands prices period k =
      (List.zipWith
        (fun mo so => mo.bind fun m => so.map fun s => m + s * (k : ℝ))
        (q2r (calculate_sma prices period)) (rollingStd prices period),
       q2r (calculate_sma prices period),
       List.zipWith
        (fun mo so => mo.bind fun m => so.map fun s => m - s * (k : ℝ))
        (q2r (calculate_sma prices period)) (rollingStd prices period)) := by
  rw [calculate_bollinger_bands, if_neg (by omega)]

/-- C8: the middle Bollinger band is the SMA array; the rolling std entry
at `i ≥ period-1` is the sample standard deviation (`ddof = 1`, divisor
`period-1`, inside `sampleStd`) of the trailing window; the upper/lower
entries are `middle ± std·k`; and wherever all three bands are defined,
`lower ≤ middle ≤ upper` whenever `k ≥ 0`. -/
theorem bollinger_bands_spec (prices : List (Option ℚ)) (period : ℕ)
    (k : ℚ) (hk : 0 ≤ k) :
    (calculate_bollinger_bands prices period k).2.1 =
      q2r (calculate_sma prices period) ∧
    (∀ i : ℕ, period - 1 ≤ i → i < prices.length →
      (rollingStd prices period)[i]? =
        some (sampleStd ((prices.drop (i + 1 - period)).take period))) ∧
    (∀ i : ℕ, ∀ m s : ℝ, period ≤ prices.length →
      (q2r (calculate_sma prices period))[i]? = some (some m) →
      (rollingStd prices period)[i]? = some (some s) →
      (calculate_bollinger_bands prices period k).1[i]? =
        some (some (m + s * (k : ℝ))) ∧
      (calculate_bollinger_bands prices period k).2.2[i]? =
        some (some (m - s * (k : ℝ)))) ∧
    (∀ i : ℕ, ∀ u m l : ℝ,
      (calculate_bollinger_bands prices period k).1[i]? = some (some u) →
      (calculate_bollinger_bands prices period k).2.1[i]? = some (some m) →
      (calculate_bollinger_bands prices period k).2.2[i]? = some (some l) →
      l ≤ m ∧ m ≤ u) := by
  refine ⟨?_, ?_, ?_, ?_⟩
  · by_cases hlen : period ≤ prices.length
    · rw [bollinger_unfold k hlen]
    · rw [calculate_bollinger_bands, if_pos (by omega)]
      show List.replicate prices.length none = _
      rw [calculate_sma, if_pos (by omega), q2r, List.map_replicate]
      rfl
  · intro i hpi hi
    rw [rollingStd_getElem hi, if_pos hpi]
  · intro i m s hlen hm hs
    rw [bollinger_unfold k hlen]
    constructor
    · exact zipWith_getElem_some _ _ _ i (some m) (some s) hm hs
    · exact zipWith_getElem_some _ _ _ i (some m) (some s) hm hs
  · intro i u m l hu hm hl
    by_cases hlen : period ≤ prices.length
    · rw [bollinger_unfold k hlen] at hu hm hl
      rcases zipWith_getElem_inv _ _ _ i _ hu with ⟨mo, so, hmo, hso, hv⟩
      rw [hm] at hmo
      have hmo2 : mo = some m := (Option.some.injEq _ _).mp hmo.symm
      rw [hmo2] at hv
      rcases so with _ | s2
      · exact Option.noConfusion hv
      · have hs2 : (rollingStd prices period)[i]? = some (some s2) := hso
        have hstd := rollingStd_entry_some hs2
        have hs2n : 0 ≤ s2 := sampleStd_nonneg hstd
        have hu2 : u = m + s2 * (k : ℝ) :=
          ((Option.some.injEq _ _).mp hv)
        rcases zipWith_getElem_inv _ _ _ i _ hl with ⟨mo3, so3, hmo3, hso3, hv3⟩
        rw [hm] at hmo3
        have hmo32 : mo3 = some m := (Option.some.injEq _ _).mp hmo3.symm
        rw [hmo32] at hv3
        rw [hso] at hso3
        have hso32 : so3 = some s2 := (Option.some.injEq _ _).mp hso3.symm
        rw [hso32] at hv3
        have hl2 : l = m - s2 * (k : ℝ) :=
          ((Option.some.injEq _ _).mp hv3)
        have hkr : (0 : ℝ) ≤ (k : ℝ) := by exact_mod_cast hk
        have hks : 0 ≤ s2 * (k : ℝ) := mul_nonneg hs2n hkr
        rw [hu2, hl2]
        constructor <;> linarith
    · rw [calculate_bollinger_bands, if_pos (by omega)] at hu
      refine absurd hu ?_
      intro hx
      rcases Nat.lt_or_ge i prices.length with hi | hi
      · rw [show ((List.replicate prices.length (none : Option ℝ),
            List.replicate prices.length (none : Option ℝ),
            List.replicate prices.length (none : Option ℝ))).1 =
            List.replicate prices.length (none : Option ℝ) from rfl,
          List.getElem?_replicate_of_lt hi] at hx
        exact Option.noConfusion ((Option.some.injEq _ _).mp hx)
      · rw [List.getElem?_eq_none (by simpa using hi)] at hx
        exact Option.noConfusion hx

/-- C8 witness: the band relations instantiated at two constant prices,
period 2, `k = 2`. -/
theorem bollinger_bands_spec_witness :
    (calculate_bollinger_bands [some (1 : ℚ), some 1] 2 2).2.1 =
      q2r (calculate_sma [some (1 : ℚ), some 1] 2) ∧
    (∀ i : ℕ, 2 - 1 ≤ i → i < [some (1 : ℚ), some 1].length →
      (rollingStd [some (1 : ℚ), some 1] 2)[i]? =
        some (sampleStd (([some (1 : ℚ), some 1].drop (i + 1 - 2)).take 2))) ∧
    (∀ i : ℕ, ∀ m s : ℝ, 2 ≤ [some (1 : ℚ), some 1].length →
      (q2r (calculate_sma [some (1 : ℚ), some 1] 2))[i]? = some (some m) →
      (rollingStd [some (1 : ℚ), some 1] 2)[i]? = some (some s) →
      (calculate_bollinger_bands [some (1 : ℚ), some 1] 2 2).1[i]? =
        some (some (m + s * ((2 : ℚ) : ℝ))) ∧
      (calculate_bollinger_bands [some (1 : ℚ), some 1] 2 2).2.2[i]? =
        some (some (m - s * ((2 : ℚ) : ℝ)))) ∧
    (∀ i : ℕ, ∀ u m l : ℝ,
      (calculate_bollinger_bands [some (1 : ℚ), some 1] 2 2).1[i]? =
        some (some u) →
      (calculate_bollinger_bands [some (1 : ℚ), some 1] 2 2).2.1[i]? =
        some (some m) →
      (calculate_bollinger_bands [some (1 : ℚ), some 1] 2 2).2.2[i]? =
        some (some l) →
      l ≤ m ∧ m ≤ u) :=
  bollinger_bands_spec [some (1 : ℚ), some 1] 2 2 (by with_unfolding_all decide)

/-- A concrete 14-candle store for the orchestration witness. -/
def sampleStore : OHLCContainer :=
  ⟨1000, List.replicate 14 ⟨1, 2, 1, 2, 0, 1⟩, none, none, none⟩

/-- C9: on a store with at least 14 candles, `apply_to_container` returns
the map of exactly the eleven named indicator arrays and writes back the
last defined RSI(14), SMA(20) and Slope(5) values (or `none`) into the
cached scalars. -/
theorem evaluate_writes_and_returns (c : OHLCContainer)
    (h : 14 ≤ c.container.length) :
    apply_to_container c =
      ([("sma_20",
          q2r (calculate_sma ((c.container.map OHLC.close).map some) 20)),
        ("ema_12",
          q2r (calculate_ema ((c.container.map OHLC.close).map some) 12)),
        ("ema_26",
          q2r (calculate_ema ((c.container.map OHLC.close).map some) 26)),
        ("rsi_14",
          q2r (calculate_rsi ((c.container.map OHLC.close).map some) 14)),
        ("macd_line",
          q2r (calculate_macd ((c.container.map OHLC.close).map some) 12 26 9).1),
        ("signal_line",
          q2r (calculate_macd ((c.container.map OHLC.close).map some) 12 26 9).2.1),
        ("histogram",
          q2r (calculate_macd ((c.container.map OHLC.close).map some) 12 26 9).2.2),
        ("upper_band",
          (calculate_bollinger_bands ((c.container.map OHLC.close).map some) 20 2).1),
        ("middle_band",
          (calculate_bollinger_bands ((c.container.map OHLC.close).map some) 20 2).2.1),
        ("lower_band",
          (calculate_bollinger_bands ((c.container.map OHLC.close).map some) 20 2).2.2),
        ("slope_5",
          q2r (calculate_slope ((c.container.map OHLC.close).map some) 5))],
       { c with
         last_rsi :=
           lastDefined (calculate_rsi ((c.container.map OHLC.close).map some) 14),
         last_moving_average :=
           lastDefined (calculate_sma ((c.container.map OHLC.close).map some) 20),
         last_slope :=
           lastDefined (calculate_slope ((c.container.map OHLC.close).map some) 5) }) := by
  simp only [apply_to_container, OHLCContainer.get_close_prices]
  rw [if_neg (by omega)]
  rw [rsi14_last, sma20_last,
    slope5_last (c.container.map OHLC.close) (by rw [List.length_map]; omega)]

/-- C9 witness: the 14-candle constant store. -/
theorem evaluate_writes_and_returns_witness :
    apply_to_container sampleStore =
      ([("sma_20",
          q2r (calculate_sma ((sampleStore.container.map OHLC.close).map some) 20)),
        ("ema_12",
          q2r (calculate_ema ((sampleStore.container.map OHLC.close).map some) 12)),
        ("ema_26",
          q2r (calculate_ema ((sampleStore.container.map OHLC.close).map some) 26)),
        ("rsi_14",
          q2r (calculate_rsi ((sampleStore.container.map OHLC.close).map some) 14)),
        ("macd_line",
          q2r (calculate_macd ((sampleStore.container.map OHLC.close).map some) 12 26 9).1),
        ("signal_line",
          q2r (calculate_macd ((sampleStore.container.map OHLC.close).map some) 12 26 9).2.1),
        ("histogram",
          q2r (calculate_macd ((sampleStore.container.map OHLC.close).map some) 12 26 9).2.2),
        ("upper_band",
          (calculate_bollinger_bands ((sampleStore.container.map OHLC.close).map some) 20 2).1),
        ("middle_band",
          (calculate_bollinger_bands ((sampleStore.container.map OHLC.close).map some) 20 2).2.1),
        ("lower_band",
          (calculate_bollinger_bands ((sampleStore.container.map OHLC.close).map some) 20 2).2.2),
        ("slope_5",
          q2r (calculate_slope ((sampleStore.container.map OHLC.close).map some) 5))],
       { sampleStore with
         last_rsi :=
           lastDefined (calculate_rsi ((sampleStore.container.map OHLC.close).map some) 14),
         last_moving_average :=
           lastDefined (calculate_sma ((sampleStore.container.map OHLC.close).map some) 20),
         last_slope :=
           lastDefined (calculate_slope ((sampleStore.container.map OHLC.close).map some) 5) }) :=
  evaluate_writes_and_returns sampleStore (by with_unfolding_all decide)
